import Mathlib

/-!
ChatBot: streaming relay, stream consumer and message formatter.

A shallow embedding of `src/server/index.js` (the two Express handlers) and
`src/client/src/App.js` (`askQuestion`, `formatMessage`).

JavaScript strings are modelled as `List Char` (a sequence of code units).
Built-in string operations used by the source (`replace` with a global regular
expression, `split`, `startsWith`, `endsWith`, `slice`, `trim`) are modelled by
structurally recursive functions over such lists.
-/

namespace ChatBot

/-- A JavaScript string, as the sequence of its code units. -/
abbrev Str := List Char

/-! ## String built-ins -/

/-- The literal matched by the regular expression `/data: /g` of `askQuestion`. -/
def dataMarker : Str := "data: ".toList

/-- `s.includes(pat)`: does `pat` occur in `s` as a contiguous substring. -/
def occurs (pat : Str) : Str → Bool
  | [] => pat.isPrefixOf []
  | c :: cs => pat.isPrefixOf (c :: cs) || occurs pat cs

/-- `s.replace(/pat/g, '')` for a literal, non-empty `pat`: scan left to right;
at a position where `pat` matches, drop the match and resume right after it
(`skip` counts the code units of the current match still to be dropped); the
output is never rescanned. -/
def removeAll (pat : Str) : Nat → Str → Str
  | _, [] => []
  | skip + 1, _ :: cs => removeAll pat skip cs
  | 0, c :: cs =>
    if pat.isPrefixOf (c :: cs) then removeAll pat (pat.length - 1) cs
    else c :: removeAll pat 0 cs

/-- `chunk.replace(/data: /g, '')` (App.js line 48). -/
def clean (chunk : Str) : Str := removeAll dataMarker 0 chunk

/-- JavaScript `WhiteSpace` and `LineTerminator` code points, as stripped by
`String.prototype.trim`. -/
def isTrimSpace (c : Char) : Bool :=
  let n := c.toNat
  n = 0x09 || n = 0x0A || n = 0x0B || n = 0x0C || n = 0x0D || n = 0x20 ||
  n = 0xA0 || n = 0x1680 || (0x2000 ≤ n && n ≤ 0x200A) || n = 0x2028 ||
  n = 0x2029 || n = 0x202F || n = 0x205F || n = 0x3000 || n = 0xFEFF

/-- `s.trim()`. -/
def trim (s : Str) : Str :=
  ((s.dropWhile isTrimSpace).reverse.dropWhile isTrimSpace).reverse

/-! ## Client: conversation state and `askQuestion` -/

/-- The `role` field of a conversation entry. -/
inductive Role
  | user
  | bot
  deriving DecidableEq, Repr

/-- A conversation entry `{ role, content }`. -/
structure Entry where
  role : Role
  content : Str
  deriving DecidableEq, Repr

/-- The React state of `App`: `question`, `conversation`, `loading`. -/
structure AppState where
  question : Str
  conversation : List Entry
  loading : Bool
  deriving DecidableEq, Repr

/-- The fixed content of the synthetic bot entry of the `catch` block. -/
def errorText : Str := "Error: Could not get a response".toList

/-- The updater passed to `setConversation` after each chunk (App.js lines
54-69): replace the last entry when its role is `bot`, append otherwise. -/
def updateBot (prevConversation : List Entry) (botMessage : Str) : List Entry :=
  match prevConversation.getLast? with
  | some lastMessage =>
    if lastMessage.role = Role.bot then
      prevConversation.dropLast ++ [⟨Role.bot, botMessage⟩]
    else
      prevConversation ++ [⟨Role.bot, botMessage⟩]
  | none => prevConversation ++ [⟨Role.bot, botMessage⟩]

/-- The updater of the `catch` block (App.js line 74). -/
def appendError (prev : List Entry) (question : Str) : List Entry :=
  prev ++ [⟨Role.user, question⟩, ⟨Role.bot, errorText⟩]

/-- What one `await reader.read()` settles to: a result `{ value, done }`
(`value` is the decoded text of the bytes when present, `none` for
`undefined`), or a rejection. -/
inductive ReadResult
  | result (value : Option Str) (done : Bool)
  | failure
  deriving DecidableEq, Repr

/-- What `await fetch(...)` settles to: a rejection, or a response with its
`ok` flag and the successive outcomes of reading its body. -/
inductive FetchOutcome
  | rejected
  | response (ok : Bool) (reads : List ReadResult)
  deriving DecidableEq, Repr

/-- How the `while (!done)` loop stands after the reads delivered so far. -/
inductive LoopOutcome
  | completed (conversation : List Entry)
  | thrown (conversation : List Entry)
  | awaiting (conversation : List Entry)
  deriving DecidableEq, Repr

/-- The `while (!done)` loop of `askQuestion` (App.js lines 42-71), run over the
outcomes of the successive reads; `botMessage` is the running buffer. When the
reads delivered so far are exhausted and `done` is still false the loop is
suspended at `await reader.read()`. -/
def readLoop : List ReadResult → Str → List Entry → LoopOutcome
  | [], _, conversation => LoopOutcome.awaiting conversation
  | ReadResult.failure :: _, _, conversation => LoopOutcome.thrown conversation
  | ReadResult.result value done :: rest, botMessage, conversation =>
    match value with
    | some chunk =>
      let botMessage' := botMessage ++ clean chunk
      let conversation' := updateBot conversation botMessage'
      if done then LoopOutcome.completed conversation'
      else readLoop rest botMessage' conversation'
    | none =>
      if done then LoopOutcome.completed conversation
      else readLoop rest botMessage conversation

/-- The function `askQuestion` (App.js lines 15-78) run from state `st` against
the network behaviour `net`; the result is the React state once everything
delivered by `net` has been processed. -/
def askQuestion (st : AppState) (net : FetchOutcome) : AppState :=
  if (trim st.question).isEmpty then st
  else
    let conversation := st.conversation ++ [⟨Role.user, st.question⟩]
    match net with
    | FetchOutcome.rejected =>
      { question := [], conversation := appendError conversation st.question,
        loading := false }
    | FetchOutcome.response ok reads =>
      if !ok then
        { question := [], conversation := appendError conversation st.question,
          loading := false }
      else
        match readLoop reads [] conversation with
        | LoopOutcome.completed conv =>
          { question := [], conversation := conv, loading := false }
        | LoopOutcome.thrown conv =>
          { question := [], conversation := appendError conv st.question,
            loading := false }
        | LoopOutcome.awaiting conv =>
          { question := [], conversation := conv, loading := true }

/-! ## Client: `formatMessage` -/

/-- Code points that `.` of a regular expression (without the `s` flag) does not
match. -/
def isLineTerminator (c : Char) : Bool :=
  let n := c.toNat
  n = 0x0A || n = 0x0D || n = 0x2028 || n = 0x2029

/-- The literal `**` matched by `\*\*`. -/
def boldMarker : Str := "**".toList

/-- The part `(.*?)\*\*` of `/\*\*(.*?)\*\*/`, tried right after an opening
`**`: the lazy group first tries the closing `**` at the current position and
only then lets `.` take one more code unit (never a line terminator). Returns
the text captured by group 1. -/
def lazyClose : Str → Option Str
  | [] => none
  | c :: cs =>
    if boldMarker.isPrefixOf (c :: cs) then some []
    else if isLineTerminator c then none
    else (lazyClose cs).map (fun captured => c :: captured)

/-- One attempt of `/\*\*(.*?)\*\*/` at the start of `s`; the result is the text
of group 1, the whole match being `**`, the group and `**`. -/
def matchBold (s : Str) : Option Str :=
  if boldMarker.isPrefixOf s then lazyClose (s.drop 2) else none

/-- The opening tag of the replacement `'<strong>$1</strong>'`. -/
def strongOpen : Str := "<strong>".toList

/-- The closing tag of the replacement `'<strong>$1</strong>'`. -/
def strongClose : Str := "</strong>".toList

/-- `s.replace(/\*\*(.*?)\*\*/g, '<strong>$1</strong>')`: scan left to right; at
a position where the expression matches, emit the replacement and resume right
after the match (`skip` counts the code units of the current match still to be
passed over); elsewhere copy the code unit. -/
def boldFrom : Nat → Str → Str
  | _, [] => []
  | skip + 1, _ :: cs => boldFrom skip cs
  | 0, c :: cs =>
    match matchBold (c :: cs) with
    | some captured =>
      strongOpen ++ captured ++ strongClose ++ boldFrom (captured.length + 3) cs
    | none => c :: boldFrom 0 cs

/-- The replace call of App.js lines 96 and 115. -/
def bold (s : Str) : Str := boldFrom 0 s

/-- `message.split('\n')`. -/
def splitLines : Str → List Str
  | [] => [[]]
  | c :: cs =>
    if c = '\n' then [] :: splitLines cs
    else
      match splitLines cs with
      | [] => [[c]]
      | l :: ls => (c :: l) :: ls

/-- The bullet marker tested by `line.startsWith('* ')`. -/
def bulletMarker : Str := "* ".toList

/-- The triple-backtick marker tested by `startsWith` and `endsWith`. -/
def fence : Str := "```".toList

/-- The hard-coded `language` of the code branch. -/
def cppLanguage : Str := "cpp".toList

/-- `line.slice(3, -3)`. -/
def sliceFence (line : Str) : Str := (line.take (line.length - 3)).drop 3

/-- The React element built for one line. `li` and `span` receive their content
through `dangerouslySetInnerHTML`, i.e. as HTML source; `codeBlock` carries the
`language`, the text child of the highlighter and the text the Copy button
passes to `handleCopyToClipboard`. (The `key` attribute is not modelled.) -/
inductive Element
  | li (innerHTML : Str)
  | codeBlock (language : Str) (code : Str) (copied : Str)
  | span (innerHTML : Str)
  deriving DecidableEq, Repr

/-- Is the element the `code-block` `div`. -/
def Element.isCodeBlock : Element → Bool
  | Element.codeBlock _ _ _ => true
  | _ => false

/-- The callback mapped over the lines in `formatMessage` (App.js lines
92-118). -/
def formatLine (line : Str) : Element :=
  if bulletMarker.isPrefixOf line then
    let content := line.drop 2
    let boldedContent := bold content
    Element.li boldedContent
  else if fence.isPrefixOf line && fence.isSuffixOf line then
    let codeContent := sliceFence line
    Element.codeBlock cppLanguage codeContent codeContent
  else
    let boldedText := bold line
    Element.span boldedText

/-- The function `formatMessage` (App.js lines 91-121): the children of the
returned `ul`. -/
def formatMessage (message : Str) : List Element :=
  (splitLines message).map formatLine

/-! ## Server: the two handlers -/

/-- A decimal literal `digits / 10 ^ scale`. -/
structure Decimal where
  digits : Nat
  scale : Nat
  deriving DecidableEq, Repr

/-- The shape of the `generationConfig` object. -/
structure GenerationConfig where
  temperature : Decimal
  topP : Decimal
  topK : Nat
  maxOutputTokens : Nat
  responseMimeType : Str
  deriving DecidableEq, Repr

/-- The constant `generationConfig` (index.js lines 20-26). -/
def generationConfig : GenerationConfig :=
  { temperature := ⟨1, 0⟩, topP := ⟨95, 2⟩, topK := 64, maxOutputTokens := 8192,
    responseMimeType := "text/plain".toList }

/-- The argument object of `model.startChat`: an absent property is `none`.
History entries are prior-turn texts. -/
structure StartChatParams where
  generationConfig : Option GenerationConfig
  history : List Str
  deriving DecidableEq, Repr

/-- The calls a handler makes on `res`, in order. -/
inductive ResAction
  | setHeader (name value : Str)
  | write (data : Str)
  | endResponse
  | status (code : Nat)
  | json (key value : Str)
  deriving DecidableEq, Repr

/-- What a handler did: the argument of `startChat`, the message handed to the
session, and the calls on `res`. -/
structure HandlerRun where
  startChat : StartChatParams
  sent : Str
  actions : List ResAction
  deriving DecidableEq, Repr

/-- How `chat.sendMessageStream(message)` and the iteration of `result.stream`
behave: the call rejects, or the stream yields the texts `fragments` in order
and then either finishes or throws (`fails`). -/
inductive StreamBehaviour
  | rejected
  | stream (fragments : List Str) (fails : Bool)
  deriving DecidableEq, Repr

/-- The frame written for one fragment, the template literal of index.js
line 70. -/
def frame (chunkText : Str) : Str := "data: ".toList ++ chunkText ++ "\n\n".toList

/-- A fragment followed by the blank-line terminator of its frame: what is left
of a frame once the leading marker is removed. -/
def terminated (chunkText : Str) : Str := chunkText ++ "\n\n".toList

/-- The three `res.setHeader` calls (index.js lines 63-65). -/
def sseHeaders : List ResAction :=
  [ResAction.setHeader "Content-Type".toList "text/event-stream".toList,
   ResAction.setHeader "Cache-Control".toList "no-cache".toList,
   ResAction.setHeader "Connection".toList "keep-alive".toList]

/-- The two calls of the `catch` block of `/chat/stream` (index.js line 76). -/
def streamErrorReply : List ResAction :=
  [ResAction.status 500,
   ResAction.json "error".toList "Error streaming response from Gemini API".toList]

/-- The handler of `POST /chat/stream` (index.js lines 55-78). -/
def chatStreamHandler (message : Str) (provider : StreamBehaviour) : HandlerRun :=
  { startChat := { generationConfig := none, history := [] }
    sent := message
    actions :=
      match provider with
      | StreamBehaviour.rejected => streamErrorReply
      | StreamBehaviour.stream fragments fails =>
        sseHeaders ++ fragments.map (fun chunkText => ResAction.write (frame chunkText)) ++
          (if fails then streamErrorReply else [ResAction.endResponse]) }

/-- The handler of `POST /chat` (index.js lines 34-53); `reply` is the text of
the provider's answer, `none` when `sendMessage` rejects. -/
def chatHandler (message : Str) (reply : Option Str) : HandlerRun :=
  { startChat := { generationConfig := some generationConfig, history := [] }
    sent := message
    actions :=
      match reply with
      | some text => [ResAction.json "response".toList text]
      | none =>
        [ResAction.status 500,
         ResAction.json "error".toList "Error generating response from Gemini API".toList] }

/-- A read that delivers the decoded text `chunk` with `done` false. -/
def chunkRead (chunk : Str) : ReadResult := ReadResult.result (some chunk) false

/-- The read that reports the end of the body: `{ value: undefined, done: true }`. -/
def endRead : ReadResult := ReadResult.result none true

/-- The body of `res.json` for an object with the single property `key` whose
value is the string `value`. (The keys and values of the two handlers are fixed
literals that need no escaping.) -/
def jsonBody (key value : Str) : Str :=
  [Char.ofNat 123, Char.ofNat 34] ++ key ++ [Char.ofNat 34, ':', Char.ofNat 34] ++ value ++
    [Char.ofNat 34, Char.ofNat 125]

/-- The status code with which the response head is sent: `res.status` sets it
as long as nothing of the body has been sent; the first `write`, `json` or `end`
commits the head with the code then in effect (200 unless set). -/
def committedStatus : Nat → List ResAction → Nat
  | code, [] => code
  | _, ResAction.status code :: rest => committedStatus code rest
  | code, ResAction.setHeader _ _ :: rest => committedStatus code rest
  | code, _ :: _ => code

/-- The reads the client gets from the body produced by the handler's calls
when every `res.write` arrives as exactly one read. `committed` tells whether
the head has been sent already. `res.end` gives the end of the body. `res.json`
on a fresh response sends the JSON body and ends it; `res.json` once the head is
committed cannot set its headers and throws, the response is never ended and the
broken connection makes the pending read reject. When the handler's calls stop
without `res.end` nothing more arrives. -/
def clientReads : Bool → List ResAction → List ReadResult
  | _, [] => []
  | committed, ResAction.setHeader _ _ :: rest => clientReads committed rest
  | committed, ResAction.status _ :: rest => clientReads committed rest
  | _, ResAction.write data :: rest => chunkRead data :: clientReads true rest
  | _, ResAction.endResponse :: _ => [endRead]
  | false, ResAction.json key value :: _ => [chunkRead (jsonBody key value), endRead]
  | true, ResAction.json _ _ :: _ => [ReadResult.failure]

/-- What `fetch` settles to for a response produced by the handler's calls:
`response.ok` holds for the status codes 200 to 299. -/
def fetchOutcomeOf (actions : List ResAction) : FetchOutcome :=
  FetchOutcome.response
    (decide (200 ≤ committedStatus 200 actions) && decide (committedStatus 200 actions ≤ 299))
    (clientReads false actions)

/-- The exchange of one question under the transport assumption that every
frame written by `/chat/stream` reaches the client as exactly one read: the
handler runs on the question, and `askQuestion` consumes the response it
produces. -/
def relayExchange (st : AppState) (provider : StreamBehaviour) : AppState :=
  askQuestion st (fetchOutcomeOf (chatStreamHandler st.question provider).actions)

/-- The number of positions of `html` at which the tag text `tag` starts: with
`tag` the opening tag of `strong`, the number of bold spans opened in `html`. -/
def countTags (tag : Str) : Str → Nat
  | [] => 0
  | c :: cs => (if tag.isPrefixOf (c :: cs) then 1 else 0) + countTags tag cs

/-- Markup check used to state the plain-text property of rendered HTML: every
`<` of `html` opens a `<strong>` or `</strong>` tag and `html` holds no `&`
(no other tag and no character reference). -/
def onlyStrongMarkup : Str → Bool
  | [] => true
  | c :: cs =>
    if c = '&' then false
    else if c = '<' then
      ("strong>".toList.isPrefixOf cs || "/strong>".toList.isPrefixOf cs) &&
        onlyStrongMarkup cs
    else onlyStrongMarkup cs

/-! ## Lemmas on `removeAll` and `clean` -/

theorem removeAll_skip (pat : Str) (n : Nat) (s : Str) :
    removeAll pat n s = removeAll pat 0 (s.drop n) := by
  induction s generalizing n with
  | nil => cases n <;> simp [removeAll]
  | cons c cs ih =>
    cases n with
    | zero => simp
    | succ n => simp [removeAll, ih n]

theorem isPrefixOf_append_self (pat rest : Str) : pat.isPrefixOf (pat ++ rest) = true := by
  induction pat with
  | nil => simp
  | cons p ps ih => simp [ih]

theorem isPrefixOf_append_right (pat s t : Str) (h : pat.isPrefixOf s = true) :
    pat.isPrefixOf (s ++ t) = true := by
  induction pat generalizing s with
  | nil => simp
  | cons p ps ih =>
    cases s with
    | nil => simp at h
    | cons a s =>
      simp only [List.cons_append, List.isPrefixOf_cons₂, Bool.and_eq_true] at h ⊢
      exact ⟨h.1, ih s h.2⟩

theorem isPrefixOf_of_append_cons (pat s t : Str) (c : Char) (hc : c ∉ pat)
    (h : pat.isPrefixOf (s ++ c :: t) = true) : pat.isPrefixOf s = true := by
  induction pat generalizing s with
  | nil => simp
  | cons p ps ih =>
    cases s with
    | nil =>
      simp only [List.nil_append, List.isPrefixOf_cons₂, Bool.and_eq_true, beq_iff_eq] at h
      exact absurd (by simp [h.1]) hc
    | cons a s =>
      simp only [List.cons_append, List.isPrefixOf_cons₂, Bool.and_eq_true] at h ⊢
      exact ⟨h.1, ih s (fun hm => hc (List.mem_cons_of_mem _ hm)) h.2⟩

theorem isPrefixOf_append_cons_eq (pat s t : Str) (c : Char) (hc : c ∉ pat) :
    pat.isPrefixOf (s ++ c :: t) = pat.isPrefixOf s := by
  cases h : pat.isPrefixOf s with
  | true => exact isPrefixOf_append_right pat s _ h
  | false =>
    cases h' : pat.isPrefixOf (s ++ c :: t) with
    | false => rfl
    | true => rw [isPrefixOf_of_append_cons pat s t c hc h'] at h; exact absurd h (by simp)

theorem removeAll_marker_append (pat rest : Str) (hpos : pat ≠ []) :
    removeAll pat 0 (pat ++ rest) = removeAll pat 0 rest := by
  cases pat with
  | nil => exact absurd rfl hpos
  | cons p ps =>
    have hp : (p :: ps).isPrefixOf (p :: (ps ++ rest)) = true :=
      isPrefixOf_append_self (p :: ps) rest
    simp only [List.cons_append, removeAll, hp, if_true]
    rw [removeAll_skip]
    simp

theorem removeAll_of_free (pat s : Str) (h : occurs pat s = false) :
    removeAll pat 0 s = s := by
  induction s with
  | nil => simp [removeAll]
  | cons c cs ih =>
    simp only [occurs, Bool.or_eq_false_iff] at h
    simp [removeAll, h.1, ih h.2]

theorem clean_of_free (s : Str) (h : occurs dataMarker s = false) : clean s = s :=
  removeAll_of_free dataMarker s h

theorem newline_not_mem_dataMarker : '\n' ∉ dataMarker := by decide

theorem occurs_append_newline (pat s t : Str) (hc : '\n' ∉ pat) (hpos : pat ≠ []) :
    occurs pat (s ++ '\n' :: t) = (occurs pat s || occurs pat t) := by
  induction s with
  | nil =>
    cases pat with
    | nil => exact absurd rfl hpos
    | cons p ps =>
      have hne : p ≠ '\n' := fun h => hc (by simp [h])
      simp [occurs, hne]
  | cons a s ih =>
    have := isPrefixOf_append_cons_eq pat (a :: s) t '\n' hc
    simp only [List.cons_append] at this
    show (pat.isPrefixOf (a :: (s ++ '\n' :: t)) || occurs pat (s ++ '\n' :: t)) =
      (pat.isPrefixOf (a :: s) || occurs pat s || occurs pat t)
    rw [this, ih, Bool.or_assoc]

theorem removeAll_free_newline (pat s t : Str) (hc : '\n' ∉ pat) (hpos : pat ≠ [])
    (h : occurs pat s = false) :
    removeAll pat 0 (s ++ '\n' :: t) = s ++ '\n' :: removeAll pat 0 t := by
  induction s with
  | nil =>
    cases pat with
    | nil => exact absurd rfl hpos
    | cons p ps =>
      have hne : p ≠ '\n' := fun h => hc (by simp [h])
      simp [removeAll, hne]
  | cons a s ih =>
    simp only [occurs, Bool.or_eq_false_iff] at h
    have := isPrefixOf_append_cons_eq pat (a :: s) t '\n' hc
    simp only [List.cons_append] at this
    simp [removeAll, this, h.1, ih h.2]

theorem clean_frame_append (f rest : Str) (h : occurs dataMarker f = false) :
    clean (frame f ++ rest) = terminated f ++ clean rest := by
  have hpos : dataMarker ≠ [] := by decide
  have h1 : frame f ++ rest = dataMarker ++ (f ++ '\n' :: ('\n' :: rest)) := by
    simp [frame, dataMarker]
  have h2 : removeAll dataMarker 0 ('\n' :: rest) = '\n' :: removeAll dataMarker 0 rest :=
    removeAll_free_newline dataMarker [] rest newline_not_mem_dataMarker hpos (by decide)
  unfold clean
  rw [h1, removeAll_marker_append _ _ hpos,
    removeAll_free_newline _ _ _ newline_not_mem_dataMarker hpos h, h2]
  simp [terminated]

theorem occurs_terminated_append (f rest : Str) (h : occurs dataMarker f = false) :
    occurs dataMarker (terminated f ++ rest) = occurs dataMarker rest := by
  have hpos : dataMarker ≠ [] := by decide
  have h1 : terminated f ++ rest = f ++ '\n' :: ('\n' :: rest) := by simp [terminated]
  have h2 : occurs dataMarker ('\n' :: rest) = occurs dataMarker rest := by
    have := occurs_append_newline dataMarker [] rest newline_not_mem_dataMarker hpos
    simp only [List.nil_append] at this
    rw [this]
    have h0 : occurs dataMarker [] = false := by decide
    rw [h0, Bool.false_or]
  rw [h1, occurs_append_newline _ _ _ newline_not_mem_dataMarker hpos, h, h2]
  simp

theorem clean_frames (fs : List Str) (h : ∀ f ∈ fs, occurs dataMarker f = false) :
    clean (fs.map frame).flatten = (fs.map terminated).flatten := by
  induction fs with
  | nil => decide
  | cons f fs ih =>
    simp only [List.map_cons, List.flatten_cons]
    rw [clean_frame_append f _ (h f (by simp)), ih (fun g hg => h g (by simp [hg]))]

theorem occurs_terminated_frames (fs : List Str) (h : ∀ f ∈ fs, occurs dataMarker f = false) :
    occurs dataMarker (fs.map terminated).flatten = false := by
  induction fs with
  | nil => decide
  | cons f fs ih =>
    simp only [List.map_cons, List.flatten_cons]
    rw [occurs_terminated_append f _ (h f (by simp)), ih (fun g hg => h g (by simp [hg]))]

/-! ## Lemmas on `updateBot`, `readLoop` and `askQuestion` -/

theorem updateBot_snoc (pre : List Entry) (e : Entry) (m : Str) :
    updateBot (pre ++ [e]) m =
      (if e.role = Role.bot then pre else pre ++ [e]) ++ [⟨Role.bot, m⟩] := by
  unfold updateBot
  by_cases h : e.role = Role.bot <;> simp [h]

theorem readLoop_chunk (x : Str) (rest : List ReadResult) (b : Str) (conv : List Entry) :
    readLoop (chunkRead x :: rest) b conv =
      readLoop rest (b ++ clean x) (updateBot conv (b ++ clean x)) := by
  simp [chunkRead, readLoop]

theorem readLoop_chunks (xs : List Str) (x b : Str) (pre : List Entry) (e : Entry)
    (rest : List ReadResult) :
    readLoop ((x :: xs).map chunkRead ++ rest) b (pre ++ [e]) =
      readLoop rest (b ++ ((x :: xs).map clean).flatten)
        ((if e.role = Role.bot then pre else pre ++ [e]) ++
          [⟨Role.bot, b ++ ((x :: xs).map clean).flatten⟩]) := by
  induction xs generalizing x b pre e with
  | nil =>
    simp only [List.map_cons, List.map_nil, List.cons_append, List.nil_append,
      List.flatten_cons, List.flatten_nil, List.append_nil]
    rw [readLoop_chunk, updateBot_snoc]
  | cons y ys ih =>
    have hstep : (x :: y :: ys).map chunkRead ++ rest =
        chunkRead x :: ((y :: ys).map chunkRead ++ rest) := by simp
    rw [hstep, readLoop_chunk, updateBot_snoc, ih]
    simp [List.append_assoc]

theorem askQuestion_not_blank (q : Str) (c : List Entry) (l : Bool) (net : FetchOutcome)
    (hq : trim q ≠ []) :
    askQuestion ⟨q, c, l⟩ net =
      match net with
      | FetchOutcome.rejected =>
        ⟨[], appendError (c ++ [⟨Role.user, q⟩]) q, false⟩
      | FetchOutcome.response ok reads =>
        if !ok then ⟨[], appendError (c ++ [⟨Role.user, q⟩]) q, false⟩
        else
          match readLoop reads [] (c ++ [⟨Role.user, q⟩]) with
          | LoopOutcome.completed conv => ⟨[], conv, false⟩
          | LoopOutcome.thrown conv => ⟨[], appendError conv q, false⟩
          | LoopOutcome.awaiting conv => ⟨[], conv, true⟩ := by
  have h : (trim q).isEmpty = false := by
    cases ht : trim q with
    | nil => exact absurd ht hq
    | cons a t => rfl
  simp only [askQuestion, h]
  rfl

theorem readLoop_user_chunks (xs : List Str) (x q : Str) (c : List Entry)
    (rest : List ReadResult) :
    readLoop ((x :: xs).map chunkRead ++ rest) [] (c ++ [⟨Role.user, q⟩]) =
      readLoop rest ((x :: xs).map clean).flatten
        (c ++ [⟨Role.user, q⟩] ++ [⟨Role.bot, ((x :: xs).map clean).flatten⟩]) := by
  have := readLoop_chunks xs x [] c ⟨Role.user, q⟩ rest
  simpa using this

theorem readLoop_then_failure (pre : List ReadResult) (b : Str) (conv s : List Entry)
    (h : readLoop pre b conv = LoopOutcome.awaiting s) :
    readLoop (pre ++ [ReadResult.failure]) b conv = LoopOutcome.thrown s := by
  induction pre generalizing b conv with
  | nil =>
    simp only [readLoop, LoopOutcome.awaiting.injEq] at h
    simp [readLoop, h]
  | cons r rest ih =>
    cases r with
    | failure => simp [readLoop] at h
    | result value done =>
      cases value with
      | none =>
        cases done with
        | true => simp [readLoop] at h
        | false =>
          simp only [readLoop, Bool.false_eq_true, if_false] at h
          simpa [readLoop] using ih b conv h
      | some chunk =>
        cases done with
        | true => simp [readLoop] at h
        | false =>
          simp only [readLoop, Bool.false_eq_true, if_false] at h
          simpa [readLoop] using ih _ _ h

theorem removeAll_length_le (pat : Str) (n : Nat) (s : Str) :
    (removeAll pat n s).length ≤ s.length := by
  induction s generalizing n with
  | nil => cases n <;> simp [removeAll]
  | cons c cs ih =>
    cases n with
    | zero =>
      simp only [removeAll]
      split
      · exact Nat.le_succ_of_le (ih _)
      · simpa using ih 0
    | succ n => exact Nat.le_succ_of_le (by simpa [removeAll] using ih n)

theorem removeAll_length_lt (pat s : Str) (h : occurs pat s = true) (hpos : pat ≠ []) :
    (removeAll pat 0 s).length < s.length := by
  induction s with
  | nil =>
    cases pat with
    | nil => exact absurd rfl hpos
    | cons p ps => simp [occurs] at h
  | cons c cs ih =>
    simp only [removeAll]
    split
    · exact Nat.lt_succ_of_le (removeAll_length_le _ _ _)
    · rename_i hp
      simp only [occurs, hp, Bool.false_or] at h
      simpa using ih h

theorem free_iff_clean_eq (t : Str) : occurs dataMarker t = false ↔ clean t = t := by
  constructor
  · exact clean_of_free t
  · intro h
    cases ho : occurs dataMarker t with
    | false => rfl
    | true =>
      have hlt := removeAll_length_lt dataMarker t ho (by decide)
      unfold clean at h
      rw [h] at hlt
      exact absurd hlt (Nat.lt_irrefl _)

theorem clientReads_frames (committed : Bool) (fs : List Str) :
    clientReads committed
        (fs.map (fun chunkText => ResAction.write (frame chunkText)) ++ [ResAction.endResponse]) =
      (fs.map frame).map chunkRead ++ [endRead] := by
  induction fs generalizing committed with
  | nil => cases committed <;> rfl
  | cons f fs ih => cases committed <;> simp [clientReads, ih]

theorem committedStatus_frames (fs : List Str) :
    committedStatus 200
        (fs.map (fun chunkText => ResAction.write (frame chunkText)) ++ [ResAction.endResponse]) =
      200 := by
  cases fs <;> rfl

theorem fetchOutcomeOf_stream (message : Str) (fs : List Str) :
    fetchOutcomeOf (chatStreamHandler message (StreamBehaviour.stream fs false)).actions =
      FetchOutcome.response true ((fs.map frame).map chunkRead ++ [endRead]) := by
  have ha : (chatStreamHandler message (StreamBehaviour.stream fs false)).actions =
      sseHeaders ++ (fs.map (fun chunkText => ResAction.write (frame chunkText)) ++
        [ResAction.endResponse]) := by
    simp [chatStreamHandler]
  have hs : committedStatus 200 (sseHeaders ++ (fs.map (fun chunkText =>
      ResAction.write (frame chunkText)) ++ [ResAction.endResponse])) = 200 :=
    committedStatus_frames fs
  have hr : clientReads false (sseHeaders ++ (fs.map (fun chunkText =>
      ResAction.write (frame chunkText)) ++ [ResAction.endResponse])) =
      (fs.map frame).map chunkRead ++ [endRead] :=
    clientReads_frames false fs
  unfold fetchOutcomeOf
  rw [ha, hs, hr]
  rfl

theorem clean_frame (f : Str) (h : occurs dataMarker f = false) :
    clean (frame f) = terminated f := by
  have h0 : clean [] = [] := rfl
  have := clean_frame_append f [] h
  rwa [List.append_nil, h0, List.append_nil] at this

theorem map_clean_frames (fs : List Str) (h : ∀ f ∈ fs, occurs dataMarker f = false) :
    (fs.map frame).map clean = fs.map terminated := by
  induction fs with
  | nil => rfl
  | cons f fs ih =>
    simp only [List.map_cons]
    rw [clean_frame f (h f (by simp)), ih (fun g hg => h g (by simp [hg]))]

theorem isPrefixOf_eq_append (pat s : Str) (h : pat.isPrefixOf s = true) :
    s = pat ++ s.drop pat.length := by
  induction pat generalizing s with
  | nil => simp
  | cons p ps ih =>
    cases s with
    | nil => simp at h
    | cons a s =>
      simp only [List.isPrefixOf_cons₂, Bool.and_eq_true, beq_iff_eq] at h
      have := ih s h.2
      simp only [List.length_cons, List.drop_succ_cons, List.cons_append]
      rw [← this, h.1]

theorem occurs_self_append (x rest : Str) (hx : x ≠ []) : occurs x (x ++ rest) = true := by
  cases x with
  | nil => exact absurd rfl hx
  | cons a x =>
    have hp : (a :: x).isPrefixOf (a :: (x ++ rest)) = true :=
      isPrefixOf_append_self (a :: x) rest
    show ((a :: x).isPrefixOf (a :: (x ++ rest)) || occurs (a :: x) (x ++ rest)) = true
    rw [hp, Bool.true_or]

theorem occurs_of_append_left (x u v : Str) (h : occurs x (u ++ v) = false) :
    occurs x v = false := by
  induction u with
  | nil => exact h
  | cons c cs ih =>
    have h' : (x.isPrefixOf (c :: (cs ++ v)) || occurs x (cs ++ v)) = false := h
    rw [Bool.or_eq_false_iff] at h'
    exact ih h'.2

theorem occurs_drop (x s : Str) (m : Nat) (h : occurs x s = false) :
    occurs x (s.drop m) = false := by
  have hs : s.take m ++ s.drop m = s := List.take_append_drop m s
  rw [← hs] at h
  exact occurs_of_append_left x _ _ h

theorem prefix_removeAll_cases (pat : Str) (t r : Str)
    (h : r.isPrefixOf (removeAll pat 0 t) = true) :
    r.isPrefixOf t = true ∨
      ∃ r1 r2 rest : Str, r = r1 ++ r2 ∧ r2 ≠ [] ∧ t = r1 ++ pat ++ rest := by
  induction t generalizing r with
  | nil => left; simpa [removeAll] using h
  | cons c cs ih =>
    cases r with
    | nil => left; simp
    | cons a r =>
      cases hp : pat.isPrefixOf (c :: cs) with
      | true =>
        right
        exact ⟨[], a :: r, (c :: cs).drop pat.length, rfl, by simp,
          by simpa using isPrefixOf_eq_append pat (c :: cs) hp⟩
      | false =>
        simp only [removeAll, hp, Bool.false_eq_true, if_false, List.isPrefixOf_cons₂,
          Bool.and_eq_true, beq_iff_eq] at h
        rcases ih r h.2 with hl | ⟨r1, r2, rest, hr, hr2, ht⟩
        · left
          simp [h.1, hl]
        · right
          refine ⟨a :: r1, r2, rest, by simp [hr], hr2, ?_⟩
          simp [h.1, ht]

theorem removeAll_free_of_guard (pat : Str) (hpos : pat ≠ []) (s : Str) (n : Nat)
    (h : ∀ i, i < pat.length → 0 < i → occurs (pat.take i ++ pat) (s.drop n) = false) :
    occurs pat (removeAll pat n s) = false := by
  induction s generalizing n with
  | nil =>
    cases pat with
    | nil => exact absurd rfl hpos
    | cons p ps => cases n <;> simp [removeAll, occurs]
  | cons c cs ih =>
    cases n with
    | succ n =>
      have h' : ∀ i, i < pat.length → 0 < i → occurs (pat.take i ++ pat) (cs.drop n) = false := by
        intro i hi hi0
        simpa using h i hi hi0
      simpa [removeAll] using ih n h'
    | zero =>
      have h0 : ∀ i, i < pat.length → 0 < i → occurs (pat.take i ++ pat) (c :: cs) = false := by
        intro i hi hi0
        simpa using h i hi hi0
      cases hp : pat.isPrefixOf (c :: cs) with
      | true =>
        have hlen : 0 < pat.length := List.length_pos.mpr hpos
        have hdrop : cs.drop (pat.length - 1) = (c :: cs).drop pat.length := by
          obtain ⟨k, hk⟩ : ∃ k, pat.length = k + 1 := ⟨pat.length - 1, by omega⟩
          rw [hk]
          simp
        have h' : ∀ i, i < pat.length → 0 < i →
            occurs (pat.take i ++ pat) (cs.drop (pat.length - 1)) = false := by
          intro i hi hi0
          rw [hdrop]
          exact occurs_drop _ _ _ (h0 i hi hi0)
        have hstep : removeAll pat 0 (c :: cs) = removeAll pat (pat.length - 1) cs := by
          simp only [removeAll, hp, if_true]
        rw [hstep]
        exact ih (pat.length - 1) h'
      | false =>
        have hcs : ∀ i, i < pat.length → 0 < i →
            occurs (pat.take i ++ pat) (cs.drop 0) = false := by
          intro i hi hi0
          have := occurs_drop _ _ 1 (h0 i hi hi0)
          simpa using this
        have hrest : occurs pat (removeAll pat 0 cs) = false := ih 0 hcs
        have hhead : pat.isPrefixOf (c :: removeAll pat 0 cs) = false := by
          cases hh : pat.isPrefixOf (c :: removeAll pat 0 cs) with
          | false => rfl
          | true =>
            exfalso
            cases pat with
            | nil => exact hpos rfl
            | cons p0 pt =>
              simp only [List.isPrefixOf_cons₂, Bool.and_eq_true, beq_iff_eq] at hh
              rcases prefix_removeAll_cases (p0 :: pt) cs pt hh.2 with
                hl | ⟨r1, r2, rest, hr, hr2, ht⟩
              · have : (p0 :: pt).isPrefixOf (c :: cs) = true := by simp [hh.1, hl]
                rw [this] at hp
                exact absurd hp (by simp)
              · have hr2len : 0 < r2.length := List.length_pos.mpr hr2
                have hi : r1.length + 1 < (p0 :: pt).length := by
                  rw [hr]
                  simp only [List.length_cons, List.length_append]
                  omega
                have htake : (p0 :: pt).take (r1.length + 1) = p0 :: r1 := by
                  rw [hr]
                  simp
                have hocc := h0 (r1.length + 1) hi (Nat.succ_pos _)
                rw [htake] at hocc
                have hshape : c :: cs = (p0 :: r1 ++ p0 :: pt) ++ rest := by
                  rw [ht, ← hh.1]
                  simp
                rw [hshape, occurs_self_append _ _ (by simp)] at hocc
                exact absurd hocc (by simp)
        have hstep : removeAll pat 0 (c :: cs) = c :: removeAll pat 0 cs := by
          simp only [removeAll, hp, Bool.false_eq_true, if_false]
        rw [hstep]
        show (pat.isPrefixOf (c :: removeAll pat 0 cs) || occurs pat (removeAll pat 0 cs)) = false
        rw [hhead, hrest]
        rfl

theorem countTags_append_plain (t0 : Char) (tt u v : Str) (h : ∀ ch ∈ u, ch ≠ t0) :
    countTags (t0 :: tt) (u ++ v) = countTags (t0 :: tt) v := by
  induction u with
  | nil => rfl
  | cons c cs ih =>
    have hc : (t0 == c) = false := by
      have := h c (by simp)
      simpa using fun e : t0 = c => this e.symm
    have hcs : ∀ ch ∈ cs, ch ≠ t0 := fun ch m => h ch (List.mem_cons_of_mem _ m)
    show (if (t0 :: tt).isPrefixOf (c :: (cs ++ v)) then 1 else 0) +
      countTags (t0 :: tt) (cs ++ v) = countTags (t0 :: tt) v
    rw [List.isPrefixOf_cons₂, hc, Bool.false_and, ih hcs]
    simp

theorem countTags_single_span (a x b : Str) (ha : ∀ ch ∈ a, ch ≠ '<')
    (hx : ∀ ch ∈ x, ch ≠ '<') (hb : ∀ ch ∈ b, ch ≠ '<') :
    countTags strongOpen (a ++ strongOpen ++ x ++ strongClose ++ b) = 1 := by
  have hopen : strongOpen = '<' :: "strong>".toList := rfl
  have hshape : a ++ strongOpen ++ x ++ strongClose ++ b =
      a ++ ('<' :: ("strong>".toList ++ (x ++ ('<' :: ("/strong>".toList ++ b))))) := by
    simp [strongOpen, strongClose]
  have hhead : strongOpen.isPrefixOf
      ('<' :: ("strong>".toList ++ (x ++ ('<' :: ("/strong>".toList ++ b))))) = true :=
    isPrefixOf_append_self strongOpen _
  have hclose : strongOpen.isPrefixOf ('<' :: ("/strong>".toList ++ b)) = false := by
    have hne : ('s' == '/') = false := by decide
    show ('<' :: 's' :: "trong>".toList).isPrefixOf
      ('<' :: '/' :: ("strong>".toList ++ b)) = false
    rw [List.isPrefixOf_cons₂, List.isPrefixOf_cons₂, hne, Bool.false_and, Bool.and_false]
  rw [hshape, hopen, countTags_append_plain '<' _ a _ ha]
  rw [← hopen]
  show (if strongOpen.isPrefixOf
      ('<' :: ("strong>".toList ++ (x ++ ('<' :: ("/strong>".toList ++ b))))) then 1 else 0) +
    countTags strongOpen ("strong>".toList ++ (x ++ ('<' :: ("/strong>".toList ++ b)))) = 1
  rw [hhead, hopen, countTags_append_plain '<' _ "strong>".toList _ (by decide),
    countTags_append_plain '<' _ x _ hx]
  rw [← hopen]
  show 1 + ((if strongOpen.isPrefixOf ('<' :: ("/strong>".toList ++ b)) then 1 else 0) +
    countTags strongOpen ("/strong>".toList ++ b)) = 1
  rw [hclose, hopen, countTags_append_plain '<' _ "/strong>".toList _ (by decide)]
  have hb' := countTags_append_plain '<' "strong>".toList b [] hb
  rw [List.append_nil] at hb'
  rw [hb']
  rfl

/-! ## Claims on the stream consumer and the relay -/

/-- C1: for every prior conversation `c`, non-blank question `q` and chunks
`xs`, once the first `k` chunks (`1 ≤ k ≤ n`) of a successful stream have been
processed the state is `c`, the user entry and one bot entry holding the cleaned
chunks in order, still loading; when the body then ends, the final state holds
the concatenation of all cleaned chunks and loading is false. Cleaning is the
left-to-right global removal of the literal `data: `: it keeps the empty chunk,
drops a match of `data: ` at the current position and resumes right after it,
and copies the current code unit where `data: ` does not match. -/
theorem askQuestion_streaming_accumulation (c : List Entry) (q : Str) (l : Bool)
    (xs : List Str) (k : Nat) (hq : trim q ≠ []) (hk1 : 1 ≤ k) (hkn : k ≤ xs.length) :
    askQuestion ⟨q, c, l⟩ (FetchOutcome.response true ((xs.take k).map chunkRead)) =
      ⟨[], c ++ [⟨Role.user, q⟩] ++ [⟨Role.bot, ((xs.take k).map clean).flatten⟩], true⟩ ∧
    askQuestion ⟨q, c, l⟩ (FetchOutcome.response true (xs.map chunkRead ++ [endRead])) =
      ⟨[], c ++ [⟨Role.user, q⟩] ++ [⟨Role.bot, (xs.map clean).flatten⟩], false⟩ ∧
    clean [] = [] ∧
    (∀ rest : Str, clean ("data: ".toList ++ rest) = clean rest) ∧
    (∀ (ch : Char) (rest : Str), "data: ".toList.isPrefixOf (ch :: rest) = false →
      clean (ch :: rest) = ch :: clean rest) := by
  refine ⟨?_, ?_, rfl, ?_, ?_⟩
  · cases xs with
    | nil => simp at hkn; omega
    | cons x xs =>
      cases k with
      | zero => omega
      | succ k =>
        have h := readLoop_user_chunks (xs.take k) x q c []
        simp only [List.append_nil] at h
        rw [askQuestion_not_blank q c l _ hq]
        simp only [Bool.not_true, Bool.false_eq_true, if_false, List.take_succ_cons]
        rw [h]
        rfl
  · cases xs with
    | nil => simp at hkn; omega
    | cons x xs =>
      have h := readLoop_user_chunks xs x q c [endRead]
      rw [askQuestion_not_blank q c l _ hq]
      simp only [Bool.not_true, Bool.false_eq_true, if_false]
      rw [h]
      rfl
  · intro rest
    exact removeAll_marker_append dataMarker rest (by decide)
  · intro ch rest hp
    have hp' : dataMarker.isPrefixOf (ch :: rest) = false := hp
    simp only [clean, removeAll, hp', Bool.false_eq_true, if_false]

/-- Witness of C1: the scenario of the question `2+2` with chunks `data: 4` and
`data: .`: after the first chunk the bot content is `4`, after the second and at
the end of the stream it is `4.`. -/
theorem askQuestion_streaming_accumulation_witness :
    (trim "2+2".toList ≠ [] ∧ 1 ≤ 1 ∧ 1 ≤ ["data: 4".toList, "data: .".toList].length) ∧
    askQuestion ⟨"2+2".toList, [], false⟩
        (FetchOutcome.response true [chunkRead "data: 4".toList]) =
      ⟨[], [⟨Role.user, "2+2".toList⟩, ⟨Role.bot, "4".toList⟩], true⟩ ∧
    askQuestion ⟨"2+2".toList, [], false⟩
        (FetchOutcome.response true
          [chunkRead "data: 4".toList, chunkRead "data: .".toList]) =
      ⟨[], [⟨Role.user, "2+2".toList⟩, ⟨Role.bot, "4.".toList⟩], true⟩ ∧
    askQuestion ⟨"2+2".toList, [], false⟩
        (FetchOutcome.response true
          [chunkRead "data: 4".toList, chunkRead "data: .".toList, endRead]) =
      ⟨[], [⟨Role.user, "2+2".toList⟩, ⟨Role.bot, "4.".toList⟩], false⟩ :=
  ⟨by decide,
    (askQuestion_streaming_accumulation [] "2+2".toList false
      ["data: 4".toList, "data: .".toList] 1 (by decide) (by decide) (by decide)).1,
    (askQuestion_streaming_accumulation [] "2+2".toList false
      ["data: 4".toList, "data: .".toList] 2 (by decide) (by decide) (by decide)).1,
    (askQuestion_streaming_accumulation [] "2+2".toList false
      ["data: 4".toList, "data: .".toList] 2 (by decide) (by decide) (by decide)).2.1⟩

/-- C4: in every error case of `askQuestion` for a non-blank question `q` (fetch
rejection, non-OK status, or a failed read arriving when the conversation has
reached `s` with the loop awaiting a read) the resulting conversation is the
conversation reached so far followed by the user entry for `q` again and the
bot entry `Error: Could not get a response`, and loading is false. -/
theorem askQuestion_error_path (c : List Entry) (q : Str) (l : Bool)
    (reads pre : List ReadResult) (s : List Entry) (hq : trim q ≠ [])
    (hs : askQuestion ⟨q, c, l⟩ (FetchOutcome.response true pre) = ⟨[], s, true⟩) :
    askQuestion ⟨q, c, l⟩ FetchOutcome.rejected =
      ⟨[], (c ++ [⟨Role.user, q⟩]) ++
        [⟨Role.user, q⟩, ⟨Role.bot, "Error: Could not get a response".toList⟩], false⟩ ∧
    askQuestion ⟨q, c, l⟩ (FetchOutcome.response false reads) =
      ⟨[], (c ++ [⟨Role.user, q⟩]) ++
        [⟨Role.user, q⟩, ⟨Role.bot, "Error: Could not get a response".toList⟩], false⟩ ∧
    askQuestion ⟨q, c, l⟩ (FetchOutcome.response true (pre ++ [ReadResult.failure])) =
      ⟨[], s ++ [⟨Role.user, q⟩, ⟨Role.bot, "Error: Could not get a response".toList⟩],
        false⟩ := by
  refine ⟨?_, ?_, ?_⟩
  · rw [askQuestion_not_blank q c l _ hq]; rfl
  · rw [askQuestion_not_blank q c l _ hq]; rfl
  · rw [askQuestion_not_blank q c l _ hq] at hs ⊢
    simp only [Bool.not_true, Bool.false_eq_true, if_false] at hs ⊢
    cases hr : readLoop pre [] (c ++ [⟨Role.user, q⟩]) with
    | completed conv => rw [hr] at hs; simp at hs
    | thrown conv => rw [hr] at hs; simp at hs
    | awaiting conv =>
      rw [hr] at hs
      simp only [AppState.mk.injEq, and_true, true_and] at hs
      rw [readLoop_then_failure pre [] _ conv hr, ← hs]
      rfl

/-- Witness of C4: the question `hi` after the entry `old`, with one chunk
`data: par` streamed before the read fails. -/
theorem askQuestion_error_path_witness :
    (trim "hi".toList ≠ [] ∧
      askQuestion ⟨"hi".toList, [⟨Role.bot, "old".toList⟩], false⟩
        (FetchOutcome.response true [chunkRead "data: par".toList]) =
        ⟨[], [⟨Role.bot, "old".toList⟩, ⟨Role.user, "hi".toList⟩,
          ⟨Role.bot, "par".toList⟩], true⟩) ∧
    (askQuestion ⟨"hi".toList, [⟨Role.bot, "old".toList⟩], false⟩ FetchOutcome.rejected =
      ⟨[], [⟨Role.bot, "old".toList⟩, ⟨Role.user, "hi".toList⟩, ⟨Role.user, "hi".toList⟩,
        ⟨Role.bot, "Error: Could not get a response".toList⟩], false⟩ ∧
    askQuestion ⟨"hi".toList, [⟨Role.bot, "old".toList⟩], false⟩
        (FetchOutcome.response false []) =
      ⟨[], [⟨Role.bot, "old".toList⟩, ⟨Role.user, "hi".toList⟩, ⟨Role.user, "hi".toList⟩,
        ⟨Role.bot, "Error: Could not get a response".toList⟩], false⟩ ∧
    askQuestion ⟨"hi".toList, [⟨Role.bot, "old".toList⟩], false⟩
        (FetchOutcome.response true [chunkRead "data: par".toList, ReadResult.failure]) =
      ⟨[], [⟨Role.bot, "old".toList⟩, ⟨Role.user, "hi".toList⟩, ⟨Role.bot, "par".toList⟩,
        ⟨Role.user, "hi".toList⟩, ⟨Role.bot, "Error: Could not get a response".toList⟩],
        false⟩) :=
  ⟨⟨by decide, by decide⟩,
    askQuestion_error_path [⟨Role.bot, "old".toList⟩] "hi".toList false []
      [chunkRead "data: par".toList]
      [⟨Role.bot, "old".toList⟩, ⟨Role.user, "hi".toList⟩, ⟨Role.bot, "par".toList⟩]
      (by decide) (by decide)⟩

/-- C7: for every prior conversation `c` and non-blank question `q`, an OK
response whose first read reports `done` with no value leaves exactly `c`
followed by the user entry, with no bot entry and no error entry, and loading
false. -/
theorem askQuestion_empty_stream (c : List Entry) (q : Str) (l : Bool) (hq : trim q ≠ []) :
    askQuestion ⟨q, c, l⟩ (FetchOutcome.response true [endRead]) =
      ⟨[], c ++ [⟨Role.user, q⟩], false⟩ := by
  rw [askQuestion_not_blank q c l _ hq]
  simp [endRead, readLoop]

/-- Witness of C7: the question `2+2` asked after one earlier exchange. -/
theorem askQuestion_empty_stream_witness :
    trim "2+2".toList ≠ [] ∧
    askQuestion ⟨"2+2".toList, [⟨Role.user, "a".toList⟩, ⟨Role.bot, "b".toList⟩], true⟩
        (FetchOutcome.response true [endRead]) =
      ⟨[], [⟨Role.user, "a".toList⟩, ⟨Role.bot, "b".toList⟩] ++
        [⟨Role.user, "2+2".toList⟩], false⟩ :=
  ⟨by decide,
    askQuestion_empty_stream [⟨Role.user, "a".toList⟩, ⟨Role.bot, "b".toList⟩]
      "2+2".toList true (by decide)⟩

/-- C2 (counterexample): for the fragments `4` and `.`, neither of which contains
the marker, the relayed exchange ends with bot content `4\n\n.\n\n`, which is not
the concatenation `4.` of the fragments. -/
theorem relay_round_trip_counterexample :
    (∀ f ∈ ["4".toList, ".".toList], occurs dataMarker f = false) ∧
    relayExchange ⟨"2+2".toList, [], false⟩
        (StreamBehaviour.stream ["4".toList, ".".toList] false) =
      ⟨[], [⟨Role.user, "2+2".toList⟩, ⟨Role.bot, "4\n\n.\n\n".toList⟩], false⟩ ∧
    "4\n\n.\n\n".toList ≠ ["4".toList, ".".toList].flatten := by
  decide

/-- C2 (amended): for every non-empty sequence of provider fragments none of
which contains the marker, if each frame written by the `/chat/stream` handler
reaches the client as one read, the client removes the marker of each frame and
the final bot content is the concatenation, in arrival order, of the fragments
each followed by the blank-line terminator of its frame. -/
theorem relay_round_trip_terminated (c : List Entry) (q : Str) (l : Bool) (fs : List Str)
    (hq : trim q ≠ []) (hne : fs ≠ []) (hfs : ∀ f ∈ fs, occurs dataMarker f = false) :
    relayExchange ⟨q, c, l⟩ (StreamBehaviour.stream fs false) =
      ⟨[], c ++ [⟨Role.user, q⟩] ++ [⟨Role.bot, (fs.map terminated).flatten⟩], false⟩ := by
  unfold relayExchange
  rw [fetchOutcomeOf_stream, askQuestion_not_blank q c l _ hq]
  cases fs with
  | nil => exact absurd rfl hne
  | cons f fs =>
    have h := readLoop_user_chunks (fs.map frame) (frame f) q c [endRead]
    simp only [Bool.not_true, Bool.false_eq_true, if_false]
    rw [List.map_cons, h, ← List.map_cons, map_clean_frames _ hfs]
    rfl

/-- Witness of C2 (amended): the fragments `4` and `.` relayed for the question
`2+2`. -/
theorem relay_round_trip_terminated_witness :
    (trim "2+2".toList ≠ [] ∧ ["4".toList, ".".toList] ≠ [] ∧
      ∀ f ∈ ["4".toList, ".".toList], occurs dataMarker f = false) ∧
    relayExchange ⟨"2+2".toList, [], false⟩
        (StreamBehaviour.stream ["4".toList, ".".toList] false) =
      ⟨[], [] ++ [⟨Role.user, "2+2".toList⟩] ++
        [⟨Role.bot, (["4".toList, ".".toList].map terminated).flatten⟩], false⟩ :=
  ⟨by decide,
    relay_round_trip_terminated [] "2+2".toList false ["4".toList, ".".toList]
      (by decide) (by decide) (by decide)⟩

/-- C3 (counterexample): cleaning the chunk `dadata: ta: ` removes the one
match at index 2 and leaves `data: `, which contains the marker; cleaning that
result again changes it. -/
theorem clean_marker_counterexample :
    clean "dadata: ta: ".toList = "data: ".toList ∧
    occurs dataMarker (clean "dadata: ta: ".toList) = true ∧
    clean (clean "dadata: ta: ".toList) ≠ clean "dadata: ta: ".toList := by
  decide

/-- C3 (amended): for every decoded chunk in which no occurrence of `data: ` is
immediately preceded by a non-empty proper prefix of `data: ` (one of `d`, `da`,
`dat`, `data`, `data:`), the cleaned chunk contains no occurrence of `data: `
and cleaning it again changes nothing; and for every chunk whatsoever, the
cleaned chunk is free of `data: ` exactly when cleaning it again changes
nothing. -/
theorem clean_marker_free (s : Str)
    (h : ∀ i, i < 6 → 0 < i →
      occurs ("data: ".toList.take i ++ "data: ".toList) s = false) :
    occurs "data: ".toList (clean s) = false ∧ clean (clean s) = clean s ∧
    ∀ t : Str, occurs "data: ".toList (clean t) = false ↔ clean (clean t) = clean t := by
  have key : occurs dataMarker (clean s) = false :=
    removeAll_free_of_guard dataMarker (by decide) s 0 (fun i hi hi0 => h i hi hi0)
  exact ⟨key, clean_of_free _ key, fun t => free_iff_clean_eq (clean t)⟩

/-- Witness of C3 (amended): the chunk `data: see data: here`, a frame whose
fragment itself holds the literal; both occurrences are removed. -/
theorem clean_marker_free_witness :
    (∀ i, i < 6 → 0 < i →
      occurs ("data: ".toList.take i ++ "data: ".toList) "data: see data: here\n\n".toList =
        false) ∧
    clean "data: see data: here\n\n".toList = "see here\n\n".toList ∧
    occurs "data: ".toList (clean "data: see data: here\n\n".toList) = false ∧
    clean (clean "data: see data: here\n\n".toList) = clean "data: see data: here\n\n".toList :=
  ⟨by decide, by decide,
    (clean_marker_free "data: see data: here\n\n".toList (by decide)).1,
    (clean_marker_free "data: see data: here\n\n".toList (by decide)).2.1⟩

/-! ## Claims on the server handlers -/

/-- C5 (the code at the failing input): when the provider stream yields the
fragment `a` and then fails, the `/chat/stream` handler has set the headers and
written one frame, then calls `res.status(500)` and `res.json` with the error
body; it never calls `res.end`. -/
theorem chatStreamHandler_midstream_failure :
    (chatStreamHandler "hi".toList (StreamBehaviour.stream ["a".toList] true)).actions =
      sseHeaders ++ [ResAction.write "data: a\n\n".toList, ResAction.status 500,
        ResAction.json "error".toList "Error streaming response from Gemini API".toList] ∧
    ResAction.endResponse ∉
      (chatStreamHandler "hi".toList (StreamBehaviour.stream ["a".toList] true)).actions ∧
    ResAction.endResponse ∈
      (chatStreamHandler "hi".toList (StreamBehaviour.stream ["a".toList] false)).actions := by
  decide

/-- C6 (the code at the failing input): the `/chat/stream` handler calls
`startChat` with an empty history and no `generationConfig` property, whereas
the `/chat` handler passes the constant `generationConfig`; the two argument
objects differ. -/
theorem chatStreamHandler_session_options :
    (chatStreamHandler "hi".toList (StreamBehaviour.stream ["a".toList] false)).startChat =
      ⟨none, []⟩ ∧
    (chatHandler "hi".toList (some "a".toList)).startChat = ⟨some generationConfig, []⟩ ∧
    (chatStreamHandler "hi".toList (StreamBehaviour.stream ["a".toList] false)).startChat ≠
      (chatHandler "hi".toList (some "a".toList)).startChat := by
  decide

/-! ## Lemmas on the formatter -/

theorem splitLines_single (s : Str) (h : '\n' ∉ s) : splitLines s = [s] := by
  induction s with
  | nil => rfl
  | cons c cs ih =>
    have hc : c ≠ '\n' := fun e => h (by simp [e])
    have hcs : '\n' ∉ cs := fun m => h (List.mem_cons_of_mem _ m)
    simp [splitLines, hc, ih hcs]

theorem matchBold_cons_ne (c : Char) (cs : Str) (h : c ≠ '*') : matchBold (c :: cs) = none := by
  have h' : ¬ ('*' = c) := fun e => h e.symm
  simp [matchBold, boldMarker, h']

theorem boldFrom_skip (n : Nat) (s : Str) : boldFrom n s = boldFrom 0 (s.drop n) := by
  induction s generalizing n with
  | nil => cases n <;> simp [boldFrom]
  | cons c cs ih =>
    cases n with
    | zero => simp
    | succ n => simp [boldFrom, ih n]

theorem boldFrom_cons_none (c : Char) (cs : Str) (h : matchBold (c :: cs) = none) :
    boldFrom 0 (c :: cs) = c :: boldFrom 0 cs := by
  simp only [boldFrom, h]

theorem boldFrom_cons_some (c : Char) (cs captured : Str)
    (h : matchBold (c :: cs) = some captured) :
    boldFrom 0 (c :: cs) =
      strongOpen ++ captured ++ strongClose ++ boldFrom (captured.length + 3) cs := by
  simp only [boldFrom, h]

theorem boldFrom_append_plain (a s : Str) (h : ∀ ch ∈ a, ch ≠ '*') :
    boldFrom 0 (a ++ s) = a ++ boldFrom 0 s := by
  induction a with
  | nil => rfl
  | cons c cs ih =>
    have hc : c ≠ '*' := h c (by simp)
    have hcs : ∀ ch ∈ cs, ch ≠ '*' := fun ch m => h ch (List.mem_cons_of_mem _ m)
    rw [List.cons_append, boldFrom_cons_none c _ (matchBold_cons_ne c _ hc), ih hcs,
      List.cons_append]

theorem boldFrom_plain (b : Str) (h : ∀ ch ∈ b, ch ≠ '*') : boldFrom 0 b = b := by
  have := boldFrom_append_plain b [] h
  simpa [boldFrom] using this

theorem lazyClose_capture (x b : Str)
    (h : ∀ ch ∈ x, ch ≠ '*' ∧ isLineTerminator ch = false) :
    lazyClose (x ++ boldMarker ++ b) = some x := by
  induction x with
  | nil => simp [lazyClose, boldMarker]
  | cons c cs ih =>
    have hc := h c (by simp)
    have hcs : ∀ ch ∈ cs, ch ≠ '*' ∧ isLineTerminator ch = false :=
      fun ch m => h ch (List.mem_cons_of_mem _ m)
    have h' : ¬ ('*' = c) := fun e => hc.1 e.symm
    have ih' : lazyClose (cs ++ '*' :: '*' :: b) = some cs := by
      simpa [boldMarker] using ih hcs
    simp [lazyClose, boldMarker, h', hc.2, ih']

theorem bold_single_span (a x b : Str) (ha : ∀ ch ∈ a, ch ≠ '*')
    (hx : ∀ ch ∈ x, ch ≠ '*' ∧ isLineTerminator ch = false) (hb : ∀ ch ∈ b, ch ≠ '*') :
    bold (a ++ boldMarker ++ x ++ boldMarker ++ b) =
      a ++ strongOpen ++ x ++ strongClose ++ b := by
  have hm : matchBold ('*' :: '*' :: (x ++ boldMarker ++ b)) = some x := by
    have := lazyClose_capture x b hx
    simpa [matchBold, boldMarker] using this
  have hdrop : List.drop (x.length + 3) ('*' :: (x ++ boldMarker ++ b)) = b := by
    simp [boldMarker, List.drop_append]
  have hshape : a ++ boldMarker ++ x ++ boldMarker ++ b =
      a ++ ('*' :: '*' :: (x ++ boldMarker ++ b)) := by
    simp [boldMarker]
  unfold bold
  rw [hshape, boldFrom_append_plain a _ ha, boldFrom_cons_some _ _ _ hm, boldFrom_skip, hdrop,
    boldFrom_plain b hb]
  simp [List.append_assoc]

theorem formatLine_bullet (rest : Str) :
    formatLine (bulletMarker ++ rest) = Element.li (bold rest) := by
  have hp : bulletMarker.isPrefixOf (bulletMarker ++ rest) = true :=
    isPrefixOf_append_self bulletMarker rest
  have hd : (bulletMarker ++ rest).drop 2 = rest := by simp [bulletMarker]
  simp only [formatLine, hp, if_true, hd]

theorem bullet_not_fence (line : Str) (h : bulletMarker.isPrefixOf line = true) :
    fence.isPrefixOf line = false := by
  cases line with
  | nil => simp [bulletMarker] at h
  | cons c cs =>
    have hc : c = '*' := by
      simp only [bulletMarker, String.toList, List.isPrefixOf_cons₂, Bool.and_eq_true,
        beq_iff_eq] at h
      exact h.1.symm
    subst hc
    have hf : fence = Char.ofNat 96 :: [Char.ofNat 96, Char.ofNat 96] := by decide
    have hne : (Char.ofNat 96 == '*') = false := by decide
    rw [hf, List.isPrefixOf_cons₂, hne, Bool.false_and]

theorem formatLine_isCodeBlock (line : Str) :
    (formatLine line).isCodeBlock = (fence.isPrefixOf line && fence.isSuffixOf line) := by
  unfold formatLine
  cases hb : bulletMarker.isPrefixOf line with
  | true => simp [Element.isCodeBlock, bullet_not_fence line hb]
  | false =>
    cases hf : (fence.isPrefixOf line && fence.isSuffixOf line) with
    | true => simp [Element.isCodeBlock]
    | false => simp [Element.isCodeBlock]

theorem formatLine_ordinary (line : Str) (h1 : bulletMarker.isPrefixOf line = false)
    (h2 : (fence.isPrefixOf line && fence.isSuffixOf line) = false) :
    formatLine line = Element.span (bold line) := by
  simp only [formatLine, h1, h2, Bool.false_eq_true, if_false]

theorem isSuffixOf_fence_closed (c : Str) : fence.isSuffixOf (fence ++ c ++ fence) = true := by
  unfold List.isSuffixOf
  rw [List.reverse_append]
  exact isPrefixOf_append_self _ _

theorem sliceFence_closed (c : Str) : sliceFence (fence ++ c ++ fence) = c := by
  have hlen : (fence ++ c ++ fence).length - 3 = (fence ++ c).length := by
    simp [fence]
  unfold sliceFence
  rw [hlen, List.take_left]
  simp [fence]

theorem formatLine_closed_fence (c : Str) :
    formatLine (fence ++ c ++ fence) = Element.codeBlock cppLanguage c c := by
  have hp : fence.isPrefixOf (fence ++ c ++ fence) = true := by
    rw [List.append_assoc]; exact isPrefixOf_append_self _ _
  have hb : bulletMarker.isPrefixOf (fence ++ c ++ fence) = false := by
    cases hb : bulletMarker.isPrefixOf (fence ++ c ++ fence) with
    | false => rfl
    | true => rw [bullet_not_fence _ hb] at hp; exact absurd hp (by simp)
  simp only [formatLine, hb, hp, isSuffixOf_fence_closed, sliceFence_closed, Bool.and_self,
    Bool.false_eq_true, if_false, if_true]

theorem isSuffixOf_fence_open (lang : Str) (hne : lang ≠ []) (hbt : Char.ofNat 96 ∉ lang) :
    fence.isSuffixOf (fence ++ lang) = false := by
  unfold List.isSuffixOf
  rw [List.reverse_append]
  cases hr : lang.reverse with
  | nil => exact absurd (List.reverse_eq_nil_iff.mp hr) hne
  | cons d r =>
    have hd : d ∈ lang := by
      have : d ∈ lang.reverse := by rw [hr]; simp
      simpa using this
    have hne' : ¬ (Char.ofNat 96 = d) := fun e => hbt (e ▸ hd)
    have hf : fence.reverse = Char.ofNat 96 :: [Char.ofNat 96, Char.ofNat 96] := by decide
    have hbeq : (Char.ofNat 96 == d) = false := by simpa using hne'
    rw [hf, List.cons_append, List.isPrefixOf_cons₂, hbeq, Bool.false_and]

theorem lazyClose_mem (s captured : Str) (h : lazyClose s = some captured) :
    ∀ ch ∈ captured, ch ∈ s := by
  induction s generalizing captured with
  | nil => simp [lazyClose] at h
  | cons c cs ih =>
    simp only [lazyClose] at h
    split at h
    · simp only [Option.some.injEq] at h
      subst h
      simp
    · split at h
      · simp at h
      · cases hl : lazyClose cs with
        | none => rw [hl] at h; simp at h
        | some cap =>
          rw [hl] at h
          simp only [Option.map_some', Option.some.injEq] at h
          subst h
          intro ch hch
          rcases List.mem_cons.mp hch with e | m
          · simp [e]
          · exact List.mem_cons_of_mem _ (ih cap hl ch m)

theorem matchBold_mem (s captured : Str) (h : matchBold s = some captured) :
    ∀ ch ∈ captured, ch ∈ s := by
  unfold matchBold at h
  split at h
  · intro ch hch
    exact List.mem_of_mem_drop (lazyClose_mem _ _ h ch hch)
  · simp at h

theorem onlyStrongMarkup_cons_plain (c : Char) (cs : Str) (h1 : c ≠ '<') (h2 : c ≠ '&') :
    onlyStrongMarkup (c :: cs) = onlyStrongMarkup cs := by
  simp only [onlyStrongMarkup, h1, h2, if_false]

theorem onlyStrongMarkup_append_plain (u v : Str) (h : ∀ ch ∈ u, ch ≠ '<' ∧ ch ≠ '&') :
    onlyStrongMarkup (u ++ v) = onlyStrongMarkup v := by
  induction u with
  | nil => rfl
  | cons c cs ih =>
    have hc := h c (by simp)
    have hcs : ∀ ch ∈ cs, ch ≠ '<' ∧ ch ≠ '&' := fun ch m => h ch (List.mem_cons_of_mem _ m)
    rw [List.cons_append, onlyStrongMarkup_cons_plain c _ hc.1 hc.2, ih hcs]

theorem onlyStrongMarkup_strongOpen (v : Str) :
    onlyStrongMarkup (strongOpen ++ v) = onlyStrongMarkup v := by
  have h : strongOpen ++ v = '<' :: ("strong>".toList ++ v) := rfl
  have hp : "strong>".toList.isPrefixOf ("strong>".toList ++ v) = true :=
    isPrefixOf_append_self _ _
  rw [h, onlyStrongMarkup]
  simp only [hp, Bool.true_or, Bool.true_and]
  rw [if_pos True.intro]
  exact onlyStrongMarkup_append_plain _ v (by decide)

theorem onlyStrongMarkup_strongClose (v : Str) :
    onlyStrongMarkup (strongClose ++ v) = onlyStrongMarkup v := by
  have h : strongClose ++ v = '<' :: ("/strong>".toList ++ v) := rfl
  have hp : "/strong>".toList.isPrefixOf ("/strong>".toList ++ v) = true :=
    isPrefixOf_append_self _ _
  rw [h, onlyStrongMarkup]
  simp only [hp, Bool.or_true, Bool.true_and]
  rw [if_pos True.intro]
  exact onlyStrongMarkup_append_plain _ v (by decide)

theorem onlyStrongMarkup_boldFrom (n : Nat) (s : Str) (h : ∀ ch ∈ s, ch ≠ '<' ∧ ch ≠ '&') :
    onlyStrongMarkup (boldFrom n s) = true := by
  induction s generalizing n with
  | nil => cases n <;> simp [boldFrom, onlyStrongMarkup]
  | cons c cs ih =>
    have hc := h c (by simp)
    have hcs : ∀ ch ∈ cs, ch ≠ '<' ∧ ch ≠ '&' := fun ch m => h ch (List.mem_cons_of_mem _ m)
    cases n with
    | succ n => simpa [boldFrom] using ih n hcs
    | zero =>
      cases hm : matchBold (c :: cs) with
      | none =>
        rw [boldFrom_cons_none c cs hm, onlyStrongMarkup_cons_plain c _ hc.1 hc.2]
        exact ih 0 hcs
      | some captured =>
        have hcap : ∀ ch ∈ captured, ch ≠ '<' ∧ ch ≠ '&' :=
          fun ch m => h ch (matchBold_mem _ _ hm ch m)
        rw [boldFrom_cons_some c cs captured hm, List.append_assoc, List.append_assoc,
          onlyStrongMarkup_strongOpen, onlyStrongMarkup_append_plain _ _ hcap,
          onlyStrongMarkup_strongClose]
        exact ih _ hcs

theorem bold_of_no_marker (s : Str) (h : occurs boldMarker s = false) : bold s = s := by
  unfold bold
  induction s with
  | nil => rfl
  | cons c cs ih =>
    simp only [occurs, Bool.or_eq_false_iff] at h
    have hm : matchBold (c :: cs) = none := by simp [matchBold, h.1]
    rw [boldFrom_cons_none c cs hm, ih h.2]

/-! ## Claims on the formatter -/

/-- C8 (counterexample): with `a` the text `<strong>y</strong>`, `x` the text
`x` and `b` empty (none holds `*` or a line terminator), the list item gets the
markup `<strong>y</strong><strong>x</strong>`, which holds two bold spans and
not exactly one. -/
theorem formatMessage_bullet_bold_counterexample :
    (∀ ch ∈ "<strong>y</strong>".toList, ch ≠ '*' ∧ isLineTerminator ch = false) ∧
    (∀ ch ∈ "x".toList, ch ≠ '*' ∧ isLineTerminator ch = false) ∧
    formatMessage ("* ".toList ++ "<strong>y</strong>".toList ++ "**".toList ++ "x".toList ++
        "**".toList ++ []) =
      [Element.li "<strong>y</strong><strong>x</strong>".toList] ∧
    countTags "<strong>".toList "<strong>y</strong><strong>x</strong>".toList = 2 := by
  decide

/-- C8 (amended): for all strings `a`, `x`, `b` without `*` and without line
terminator, the single-line message made of `* `, `a`, `**`, `x`, `**` and `b`
is rendered as exactly one list item whose inner HTML is `a`, then `x` wrapped
in `<strong>` and `</strong>`, then `b`; when `a`, `x` and `b` also hold no `<`,
that markup holds exactly one bold span, the one containing `x`. -/
theorem formatMessage_bullet_bold (a x b : Str)
    (ha : ∀ ch ∈ a, ch ≠ '*' ∧ isLineTerminator ch = false)
    (hx : ∀ ch ∈ x, ch ≠ '*' ∧ isLineTerminator ch = false)
    (hb : ∀ ch ∈ b, ch ≠ '*' ∧ isLineTerminator ch = false) :
    formatMessage ("* ".toList ++ a ++ "**".toList ++ x ++ "**".toList ++ b) =
      [Element.li (a ++ "<strong>".toList ++ x ++ "</strong>".toList ++ b)] ∧
    ((∀ ch ∈ a ++ x ++ b, ch ≠ '<') →
      countTags "<strong>".toList (a ++ "<strong>".toList ++ x ++ "</strong>".toList ++ b) =
        1) := by
  have hnl : ∀ t : Str, (∀ ch ∈ t, ch ≠ '*' ∧ isLineTerminator ch = false) → '\n' ∉ t := by
    intro t ht hm
    have := (ht '\n' hm).2
    exact absurd this (by decide)
  have hline : '\n' ∉ bulletMarker ++ a ++ boldMarker ++ x ++ boldMarker ++ b := by
    intro hm
    simp only [List.mem_append] at hm
    rcases hm with ((((hm | hm) | hm) | hm) | hm) | hm
    · exact absurd hm (by decide)
    · exact hnl a ha hm
    · exact absurd hm (by decide)
    · exact hnl x hx hm
    · exact absurd hm (by decide)
    · exact hnl b hb hm
  have hshape : bulletMarker ++ a ++ boldMarker ++ x ++ boldMarker ++ b =
      bulletMarker ++ (a ++ boldMarker ++ x ++ boldMarker ++ b) := by
    simp [List.append_assoc]
  have hfmt : formatMessage (bulletMarker ++ a ++ boldMarker ++ x ++ boldMarker ++ b) =
      [Element.li (a ++ strongOpen ++ x ++ strongClose ++ b)] := by
    unfold formatMessage
    rw [splitLines_single _ hline, hshape, List.map_cons, List.map_nil, formatLine_bullet,
      bold_single_span a x b (fun ch m => (ha ch m).1) hx (fun ch m => (hb ch m).1)]
  refine ⟨hfmt, ?_⟩
  intro hlt
  exact countTags_single_span a x b
    (fun ch m => hlt ch (by simp [m])) (fun ch m => hlt ch (by simp [m]))
    (fun ch m => hlt ch (by simp [m]))

/-- Witness of C8 (amended): the message `* **bold** item` gives one list item
holding one bold span with `bold`, followed by ` item`. -/
theorem formatMessage_bullet_bold_witness :
    formatMessage "* **bold** item".toList =
      [Element.li "<strong>bold</strong> item".toList] ∧
    countTags "<strong>".toList "<strong>bold</strong> item".toList = 1 :=
  ⟨(formatMessage_bullet_bold [] "bold".toList " item".toList
      (by decide) (by decide) (by decide)).1,
    (formatMessage_bullet_bold [] "bold".toList " item".toList
      (by decide) (by decide) (by decide)).2 (by decide)⟩

/-- C9 (counterexample): a line made only of the three backticks is rendered as
a code block although it is not of the form fence, `c`, fence; so in the
three-line fenced block opened by a line with `cpp` after the fence, the
closing line is rendered as a code block, with empty code. -/
theorem formatLine_fence_counterexample :
    formatMessage "```cpp\nint x;\n```".toList =
      [Element.span "```cpp".toList, Element.span "int x;".toList,
        Element.codeBlock cppLanguage [] []] ∧
    (formatLine "```".toList).isCodeBlock = true ∧
    ¬ ∃ c : Str, "```".toList = fence ++ c ++ fence := by
  refine ⟨by decide, by decide, ?_⟩
  rintro ⟨c, hc⟩
  have hlen := congrArg List.length hc
  have h3 : fence.length = 3 := by decide
  have h3' : "```".toList.length = 3 := by decide
  rw [List.length_append, List.length_append, h3, h3'] at hlen
  omega

/-- C9 (amended): a line is rendered as a code block exactly when it starts
with the fence and ends with the fence (the two may overlap); every line of the
form fence, `c`, fence is rendered as a code block whose shown and copied code
is exactly `c`; in a multi-line fenced block, the opening line (the fence
followed by a non-empty language tag without backtick) and every body line that
does not start with the fence are not rendered as code blocks. -/
theorem formatLine_code_block (line c lang body : Str) (hlang : lang ≠ [])
    (hbt : Char.ofNat 96 ∉ lang) (hbody : fence.isPrefixOf body = false) :
    (formatLine line).isCodeBlock = (fence.isPrefixOf line && fence.isSuffixOf line) ∧
    formatLine (fence ++ c ++ fence) = Element.codeBlock cppLanguage c c ∧
    (formatLine (fence ++ lang)).isCodeBlock = false ∧
    (formatLine body).isCodeBlock = false := by
  refine ⟨formatLine_isCodeBlock line, formatLine_closed_fence c, ?_, ?_⟩
  · rw [formatLine_isCodeBlock, isSuffixOf_fence_open lang hlang hbt, Bool.and_false]
  · rw [formatLine_isCodeBlock, hbody, Bool.false_and]

/-- Witness of C9 (amended): the one-line fence around `int x;`, the opening
line with the tag `cpp` and the body line `int x;`. -/
theorem formatLine_code_block_witness :
    ("cpp".toList ≠ [] ∧ Char.ofNat 96 ∉ "cpp".toList ∧
      fence.isPrefixOf "int x;".toList = false) ∧
    ((formatLine "```int x;```".toList).isCodeBlock =
        (fence.isPrefixOf "```int x;```".toList && fence.isSuffixOf "```int x;```".toList) ∧
      formatLine (fence ++ "int x;".toList ++ fence) =
        Element.codeBlock cppLanguage "int x;".toList "int x;".toList ∧
      (formatLine (fence ++ "cpp".toList)).isCodeBlock = false ∧
      (formatLine "int x;".toList).isCodeBlock = false) :=
  ⟨by decide,
    formatLine_code_block "```int x;```".toList "int x;".toList "cpp".toList "int x;".toList
      (by decide) (by decide) (by decide)⟩

/-- C10 (counterexample): the ordinary lines `<img src=x onerror=alert(1)>` and
`&amp;` are handed to the `span` unchanged as its inner HTML, so the rendered
HTML holds a tag other than `strong`, respectively a character reference. -/
theorem formatLine_plain_text_counterexample :
    bulletMarker.isPrefixOf "<img src=x onerror=alert(1)>".toList = false ∧
    fence.isPrefixOf "<img src=x onerror=alert(1)>".toList = false ∧
    formatMessage "<img src=x onerror=alert(1)>".toList =
      [Element.span "<img src=x onerror=alert(1)>".toList] ∧
    onlyStrongMarkup "<img src=x onerror=alert(1)>".toList = false ∧
    formatMessage "&amp;".toList = [Element.span "&amp;".toList] ∧
    onlyStrongMarkup "&amp;".toList = false := by
  decide

/-- C10 (amended): every line that neither begins with the bullet marker nor
both starts and ends with the fence is rendered as a `span` whose inner HTML is
the line with each `**...**` match replaced by a `strong` element and every
other character copied unchanged, without escaping (a line without `**` is
passed on as it is); when the line holds no `<` and no `&`, the only markup of
that HTML is the `strong` tags. -/
theorem formatLine_ordinary_line (line : Str) (h1 : bulletMarker.isPrefixOf line = false)
    (h2 : (fence.isPrefixOf line && fence.isSuffixOf line) = false) :
    formatLine line = Element.span (bold line) ∧
    (occurs boldMarker line = false → bold line = line) ∧
    ((∀ ch ∈ line, ch ≠ '<' ∧ ch ≠ '&') → onlyStrongMarkup (bold line) = true) :=
  ⟨formatLine_ordinary line h1 h2, bold_of_no_marker line,
    onlyStrongMarkup_boldFrom 0 line⟩

/-- Witness of C10 (amended): the ordinary line `a **b** c`. -/
theorem formatLine_ordinary_line_witness :
    formatLine "a **b** c".toList = Element.span "a <strong>b</strong> c".toList ∧
    onlyStrongMarkup (bold "a **b** c".toList) = true :=
  ⟨(formatLine_ordinary_line "a **b** c".toList (by decide) (by decide)).1,
    (formatLine_ordinary_line "a **b** c".toList (by decide) (by decide)).2.2 (by decide)⟩

end ChatBot
